import Mathlib

/-!
Shallow embedding of the IndexedDBShim transaction engine
(`src/src/IDBObjectStore.js`: `IDBObjectStore` and `IDBTransaction`).

Part 1: the JavaScript value model, the key validator
(`IDBObjectStore.prototype.__validateKey`), key derivation
(`IDBObjectStore.prototype.__deriveKey`), the write path
(`add` / `put` / `__insertData`) and the read path (`get`).
External collaborators (`idbModules.Key`, `idbModules.Sca`, the SQL layer)
are not under `src/`; the few facts about them that the claims need are
modelled from the spec and marked as such in their doc comments.
-/

namespace IDBShim

/-- Error names used by the code (DOMException / DOMError names). -/
def DataError : String := "DataError"

def ConstraintError : String := "ConstraintError"

def ReadOnlyError : String := "ReadOnlyError"

def TransactionInactiveError : String := "TransactionInactiveError"

/-- A JavaScript value, restricted to the shapes the claims exercise:
`undefined`, `null`, booleans, (integer) numbers, strings and plain objects. -/
inductive JsVal where
  | undef
  | null
  | bool (b : Bool)
  | num (n : Int)
  | str (s : String)
  | obj (fields : List (String × JsVal))

/-- Field lookup in a JS object literal (first binding wins, as in a JS object
whose keys are distinct). -/
def lookupField : List (String × JsVal) → String → Option JsVal
  | [], _ => none
  | (k, v) :: rest, s => if k = s then some v else lookupField rest s

/-- Modelled from the spec: `idbModules.Key.getValue(record, keyPath)` "walks a
dotted/segmented path into a structured record and returns `undefined` if any
segment is absent rather than failing".  The key path is represented as its
list of segments. -/
def getValue : JsVal → List String → JsVal
  | v, [] => v
  | JsVal.obj fs, s :: rest =>
    match lookupField fs s with
    | some v => getValue v rest
    | none => JsVal.undef
  | _, _ :: _ => JsVal.undef

/-- Modelled from the spec: `idbModules.Key.setValue(record, keyPath, key)`
"writes a generated key back into a record at the given path, failing if any
intermediate segment is not an object/mapping that can hold the new field".
`none` models the thrown failure. -/
def setValue : JsVal → List String → JsVal → Option JsVal
  | _, [], k => some k
  | JsVal.obj fs, s :: rest, k =>
    match lookupField fs s with
    | some v =>
      match setValue v rest k with
      | some v' => some (JsVal.obj ((s, v') :: fs.filter (fun p => ¬ p.1 = s)))
      | none => none
    | none =>
      match rest with
      | [] => some (JsVal.obj ((s, k) :: fs))
      | _ :: _ => none
  | _, _ :: _, _ => none

/-- Modelled from the spec: `idbModules.Key.validate(value)` "fails with
`DataError` if the value is not an allowed key type (a number that is not NaN,
a text string, a timestamp/date-like scalar, or a binary sequence)".  In this
value model numbers are integers (never NaN) and dates/binary/arrays are not
represented, so the valid keys are numbers and strings. -/
def keyValidate : JsVal → Except String Unit
  | JsVal.num _ => Except.ok ()
  | JsVal.str _ => Except.ok ()
  | _ => Except.error DataError

/-- JavaScript truthiness, for `if (value && typeof value === "object")`. -/
def jsTruthy : JsVal → Bool
  | JsVal.undef => false
  | JsVal.null => false
  | JsVal.bool b => b
  | JsVal.num n => ¬ n = 0
  | JsVal.str s => ¬ s = ""
  | JsVal.obj _ => true

/-- The test `typeof value === "object"` (true for objects and for `null`). -/
def isObjectType : JsVal → Bool
  | JsVal.obj _ => true
  | JsVal.null => true
  | _ => false

/-- The per-transaction view of an object store's schema
(`IDBObjectStore`: `name`, `keyPath`, `autoIncrement`).  A key path is its
list of segments; `none` means the store uses out-of-line keys. -/
structure ObjectStore where
  name : String
  keyPath : Option (List String)
  autoIncrement : Bool
deriving DecidableEq, Repr

/-- Transcription of `IDBObjectStore.prototype.__validateKey(value, key)` from the
source.  `key = none` models an `undefined` key argument.  `Except.error e`
models a synchronously thrown DOMException with name `e`. -/
def validateKey (store : ObjectStore) (value : JsVal) (key : Option JsVal) :
    Except String Unit :=
  match store.keyPath with
  | some kp =>
    match key with
    | some _ =>
      -- "The object store uses in-line keys and the key parameter was provided"
      Except.error DataError
    | none =>
      if jsTruthy value ∧ isObjectType value then
        match getValue value kp with
        | JsVal.undef =>
          if store.autoIncrement then
            -- A key will be generated
            Except.ok ()
          else
            -- "Could not eval key from keyPath"
            Except.error DataError
        | k => keyValidate k
      else
        -- "KeyPath was specified, but value was not an object"
        Except.error DataError
  | none =>
    match key with
    | none =>
      if store.autoIncrement then
        -- A key will be generated
        Except.ok ()
      else
        -- "... has no key generator and the key parameter was not provided"
        Except.error DataError
    | some k => keyValidate k

/-- Transaction modes (`IDBTransaction.READ_ONLY` / `READ_WRITE` /
`VERSION_CHANGE`). -/
inductive TxMode where
  | readOnly
  | readWrite
  | versionChange
deriving DecidableEq, Repr

/-- Transcription of `IDBTransaction.prototype.__assertWritable`. -/
def assertWritable (mode : TxMode) : Except String Unit :=
  match mode with
  | TxMode.readOnly => Except.error ReadOnlyError
  | _ => Except.ok ()

/-- The synchronous prelude of `IDBObjectStore.prototype.add` (everything it
runs before enqueuing: `__validateKey` then `__assertWritable`). -/
def addPrelude (store : ObjectStore) (mode : TxMode) (value : JsVal)
    (key : Option JsVal) : Except String Unit := do
  validateKey store value key
  assertWritable mode

/-- The synchronous prelude of `IDBObjectStore.prototype.put`; the source
duplicates the same two checks verbatim. -/
def putPrelude (store : ObjectStore) (mode : TxMode) (value : JsVal)
    (key : Option JsVal) : Except String Unit := do
  validateKey store value key
  assertWritable mode

/-! ### Auto-increment key derivation (`__deriveKey`) -/

/-- The state of the backend's `sqlite_sequence` row for one store:
`none` when the lookup returns no row, `some s` when it returns the recorded
sequence value `s`.  (`sqlite_sequence` is keyed by table name, so at most one
row matches; the source's `data.rows.length !== 1` test is the no-row test.) -/
abbrev SeqRow := Option Int

/-- The helper `getNextAutoIncKey` inside `__deriveKey`: `1` when the sequence lookup
returns no row, otherwise the recorded value plus one. -/
def getNextAutoIncKey (seqRow : SeqRow) : Int :=
  match seqRow with
  | none => 1
  | some s => s + 1

/-- Modelled from the spec: the backend's recorded sequence after a successful
insert into an auto-increment table — SQLite assigns the next
`AUTOINCREMENT` rowid (one greater than the recorded sequence, which starts
absent/zero) and records it in `sqlite_sequence`. -/
def seqAfterInsert (seqRow : SeqRow) : SeqRow :=
  some ((seqRow.getD 0) + 1)

/-- Outcome of `__deriveKey`: the value passed to `success` (the derived
primary key, plus the possibly-updated record value), or the error passed to
`failure`. -/
inductive DeriveOut where
  | ok (primaryKey : JsVal) (newValue : JsVal)
  | err (e : String)

/-- Transcription of `IDBObjectStore.prototype.__deriveKey(tx, value, key, success, failure)`,
with the backend's `sqlite_sequence` lookup abstracted as `seqRow`. -/
def deriveKey (store : ObjectStore) (seqRow : SeqRow) (value : JsVal)
    (key : Option JsVal) : DeriveOut :=
  match store.keyPath with
  | some kp =>
    match getValue value kp, store.autoIncrement with
    | JsVal.undef, true =>
      let k := getNextAutoIncKey seqRow
      match setValue value kp (JsVal.num k) with
      | some v' => DeriveOut.ok (JsVal.num k) v'
      | none =>
        -- "Could not assign a generated value to the keyPath"
        DeriveOut.err DataError
    | primaryKey, _ => DeriveOut.ok primaryKey value
  | none =>
    match key, store.autoIncrement with
    | none, true => DeriveOut.ok (JsVal.num (getNextAutoIncKey seqRow)) value
    | _, _ => DeriveOut.ok (key.getD JsVal.undef) value

/-! ### The backend table and the queued work of `add` / `put` / `get` -/

/-- One store's table: rows of (encoded primary key, encoded value).
`__createObjectStore` declares the `key` column `PRIMARY KEY` (or `UNIQUE`
for auto-increment stores), so key uniqueness is enforced by the storage
layer. -/
abbrev Table := List (Int × Nat)

/-- The single `INSERT` of `IDBObjectStore.prototype.__insertData`: the backend
rejects a duplicate primary key, which the source surfaces as a
`ConstraintError`; otherwise the row is appended. -/
def insertData (tbl : Table) (k : Int) (v : Nat) : Except String Table :=
  if tbl.any (fun r => r.1 = k) then Except.error ConstraintError
  else Except.ok (tbl ++ [(k, v)])

/-- The `DELETE FROM <store> where key = ?` that `put`'s queued work issues
before inserting (a no-op when the key is absent). -/
def sqlDeleteByKey (tbl : Table) (k : Int) : Table :=
  tbl.filter (fun r => ¬ r.1 = k)

/-- The queued unit of work of `add` (`objectStoreAdd` → `__insertData`),
after key derivation and value encoding. -/
def addWork (tbl : Table) (k : Int) (v : Nat) : Except String Table :=
  insertData tbl k v

/-- The queued unit of work of `put` (`objectStorePut`): first the
delete-by-primary-key, then the same `__insertData`. -/
def putWork (tbl : Table) (k : Int) (v : Nat) : Except String Table :=
  insertData (sqlDeleteByKey tbl k) k v

/-- A stored (encoded) value as `get` reads it back: either one the external
codec can decode, or a malformed legacy row. -/
inductive Stored where
  | good (v : Nat)
  | bad
deriving DecidableEq, Repr

/-- Modelled from the spec: `idbModules.Sca.decode` — deserializes a stored
value; throws on a malformed row, which `none` models. -/
def scaDecode : Stored → Option Nat
  | Stored.good v => some v
  | Stored.bad => none

/-- What a queued operation's continuation delivers: `success v` resolves the
request with `v` (`none` = `undefined`, i.e. "no value"), `failure e` invokes
the error continuation. -/
inductive GetOut where
  | success (v : Option Nat)
  | failure (e : String)
deriving DecidableEq, Repr

/-- The queued unit of work of `get` (`objectStoreGet`), given the backend's
response to `SELECT * FROM <store> where key = ?`: an error, or the list of
matching rows.  Zero rows resolve as `success undefined`; one row decodes the
first row's value; a decode throw is caught and still resolves `success` with
the (undefined) value. -/
def getWork (rows : Except String (List Stored)) : GetOut :=
  match rows with
  | Except.error e => GetOut.failure e
  | Except.ok [] => GetOut.success none
  | Except.ok (r :: _) =>
    match scaDecode r with
    | some v => GetOut.success (some v)
    | none => GetOut.success none

/-! ### The transaction scheduler (`IDBTransaction`)

`IDBTransaction.prototype.__executeRequests` drives the queue with a pair of
continuations (`success` / `error`), a live index `i`, and the closures
`executeNextRequest`, `transactionError` and `transactionFinished`.  The
model below reproduces that drain loop as a fuel-indexed recursion.  A queued
operation is abstracted by the outcome of its backend call (`OpBehavior`): the
backend's contract is that each call's continuation fires exactly once.  The
user-supplied event handlers (`onsuccess` / `onerror` on a request, and the
transaction's `oncomplete`) are modelled by a small action type `HAct`:
do nothing, throw, call `abort()`, or enqueue another operation. -/

/-- The observable outcome of one queued operation's backend call:
it invokes `success v`, invokes `error e`, or throws synchronously from the
operation's procedure (which `executeNextRequest` catches and routes to
`error`). -/
inductive OpBehavior where
  | succeed (v : Option Nat)
  | fail (e : String)
  | throwSync (e : String)
deriving DecidableEq, Repr

/-- What a user event handler does when fired. -/
inductive HAct where
  | nop
  | throws (e : String)
  | abortCall
  | enq (b : OpBehavior)
deriving DecidableEq, Repr

/-- One entry of `IDBTransaction.__requests`: the operation (abstracted by its
backend outcome), its handlers, and the `IDBRequest` fields the scheduler
assigns (`readyState`, `result`, `error`). -/
structure QItem where
  behavior : OpBehavior
  onsuccess : HAct
  onerror : HAct
  readyState : String
  result : Option (Option Nat)
  errVal : Option String
deriving DecidableEq, Repr

/-- A freshly enqueued item: a pending request. -/
def mkItem (b : OpBehavior) (os oe : HAct) : QItem :=
  ⟨b, os, oe, "pending", none, none⟩

/-- The mutable state of one `IDBTransaction`: the live request list, the
drain index `i`, the `__active` / `__running` / `__errored` flags, the
recorded transaction error, the number of `onabort` callbacks scheduled via
`setTimeout` but not yet fired, and the transaction's `oncomplete` handler. -/
structure TxState where
  requests : List QItem
  i : Nat
  active : Bool
  running : Bool
  errored : Bool
  errVal : Option String
  pendingAborts : Nat
  oncomplete : HAct
deriving DecidableEq, Repr

/-- Observable events, in the order they fire: execution of operation `idx`'s
procedure begins; `onsuccess` / `onerror` fires on request `idx` (which
happens together with resolving that request's result handle); the
transaction-level `onerror` fires; `oncomplete` fires; a deferred `onabort`
fires; an exception propagates out uncaught. -/
inductive Ev where
  | execOp (idx : Nat)
  | reqSuccess (idx : Nat)
  | reqError (idx : Nat)
  | txError
  | txComplete
  | txAbort
  | fatal (e : String)
deriving DecidableEq, Repr

/-- Result of running a piece of the scheduler: the new state, the events
fired (in order), and an exception propagating outward, if any. -/
structure StepOut where
  state : TxState
  events : List Ev
  thrown : Option String
deriving DecidableEq, Repr

/-- Replace the element at position `n` (out-of-range is the identity). -/
def modifyAt : List α → Nat → (α → α) → List α
  | [], _, _ => []
  | x :: xs, 0, f => f x :: xs
  | x :: xs, n + 1, f => x :: modifyAt xs n f

/-- Transcription of `IDBTransaction.prototype.abort`: immediately clears `__active` and
schedules the `onabort` callback on a later turn via `setTimeout` (it fires
no event synchronously). -/
def abortTx (s : TxState) : TxState :=
  { s with active := false, pendingAborts := s.pendingAborts + 1 }

/-- Transcription of `IDBTransaction.prototype.__pushToQueue` (preceded by `__assertActive`):
enqueuing on an inactive transaction throws `TransactionInactiveError`. -/
def pushToQueue (s : TxState) (item : QItem) : Except String TxState :=
  if s.active then Except.ok { s with requests := s.requests ++ [item] }
  else Except.error TransactionInactiveError

/-- The request-fields assignment done by the `success` continuation:
`readyState = "done"`, `result = v`, `delete error`. -/
def setReqDone (s : TxState) (idx : Nat) (v : Option Nat) : TxState :=
  { s with
    requests := modifyAt s.requests idx
      (fun q => { q with readyState := "done", result := some v, errVal := none }) }

/-- The request-fields assignment done by the `error` continuation:
`readyState = "done"`, `error = err`, `result = undefined`. -/
def setReqFailed (s : TxState) (idx : Nat) (err : String) : TxState :=
  { s with
    requests := modifyAt s.requests idx
      (fun q => { q with readyState := "done", errVal := some err, result := none }) }

/-- The closure `transactionError(err)` inside `__executeRequests`: a no-op once
`__errored` is set; otherwise sets `__errored`, and — if the transaction is
no longer active — throws the error instead of notifying; if still active,
records the error, fires the transaction-level `onerror`, and (in a
`finally`) calls `abort()`. -/
def transactionError (s : TxState) (err : String) : StepOut :=
  if s.errored then ⟨s, [], none⟩
  else if s.active then
    ⟨abortTx { s with errored := true, errVal := some err }, [Ev.txError], none⟩
  else
    ⟨{ s with errored := true }, [], some err⟩

/-- The closure `transactionFinished()` inside `__executeRequests`: fires `oncomplete`;
if the handler itself throws (including a `TransactionInactiveError` from a
handler that tries to enqueue), sets `__errored` and rethrows the fault
outward. -/
def transactionFinished (s : TxState) : StepOut :=
  match s.oncomplete with
  | HAct.nop => ⟨s, [Ev.txComplete], none⟩
  | HAct.throws e => ⟨{ s with errored := true }, [Ev.txComplete], some e⟩
  | HAct.abortCall => ⟨abortTx s, [Ev.txComplete], none⟩
  | HAct.enq b =>
    match pushToQueue s (mkItem b HAct.nop HAct.nop) with
    | Except.ok s' => ⟨s', [Ev.txComplete], none⟩
    | Except.error e => ⟨{ s with errored := true }, [Ev.txComplete], some e⟩

/-- The `error` continuation inside `__executeRequests`:
`try` — mark the request failed and fire its `onerror` (the handler may
throw, abort, or enqueue) — `finally` — run `transactionError(err)`.
The transaction-level path thus always runs; an exception thrown by
`transactionError` (inactive case) supersedes one thrown by the handler. -/
def errorStep (s : TxState) (idx : Nat) (err : String) (h : HAct) : StepOut :=
  let s1 := setReqFailed s idx err
  let afterHandler : TxState × Option String :=
    match h with
    | HAct.nop => (s1, none)
    | HAct.throws e => (s1, some e)
    | HAct.abortCall => (abortTx s1, none)
    | HAct.enq b =>
      match pushToQueue s1 (mkItem b HAct.nop HAct.nop) with
      | Except.ok t => (t, none)
      | Except.error e => (s1, some e)
  let r := transactionError afterHandler.1 err
  ⟨r.state, Ev.reqError idx :: r.events,
    match r.thrown with
    | some e => some e
    | none => afterHandler.2⟩

/-- The drain loop `executeNextRequest` of `__executeRequests`, with the
`success` continuation inlined.  While `i` is inside the live request list,
run operation `i`'s procedure; on success, resolve the request, fire
`onsuccess`, advance `i`, continue; on error (or a synchronous throw, which
the loop catches), run the `error` continuation and stop (the loop never
advances past a failed operation).  When `i` reaches the end of the live
list, clear the list; if the transaction is still active, deactivate it and
run `transactionFinished`.  `fuel` bounds the recursion; one unit is spent
per operation executed plus one for the terminal check. -/
def drain : Nat → TxState → StepOut
  | 0, s => ⟨s, [], none⟩
  | fuel + 1, s =>
    match s.requests.drop s.i with
    | q :: _ =>
      -- i < length of the live list: q = s.requests[i]
      let idx := s.i
      match q.behavior with
      | OpBehavior.succeed v =>
        let s1 := setReqDone s idx v
        match q.onsuccess with
        | HAct.nop =>
          let r := drain fuel { s1 with i := idx + 1 }
          ⟨r.state, Ev.execOp idx :: Ev.reqSuccess idx :: r.events, r.thrown⟩
        | HAct.throws e =>
          ⟨s1, [Ev.execOp idx, Ev.reqSuccess idx, Ev.fatal e], some e⟩
        | HAct.abortCall =>
          let r := drain fuel { abortTx s1 with i := idx + 1 }
          ⟨r.state, Ev.execOp idx :: Ev.reqSuccess idx :: r.events, r.thrown⟩
        | HAct.enq b =>
          match pushToQueue s1 (mkItem b HAct.nop HAct.nop) with
          | Except.ok s2 =>
            let r := drain fuel { s2 with i := idx + 1 }
            ⟨r.state, Ev.execOp idx :: Ev.reqSuccess idx :: r.events, r.thrown⟩
          | Except.error e =>
            ⟨s1, [Ev.execOp idx, Ev.reqSuccess idx, Ev.fatal e], some e⟩
      | OpBehavior.fail e =>
        let r := errorStep s idx e q.onerror
        ⟨r.state, Ev.execOp idx :: r.events, r.thrown⟩
      | OpBehavior.throwSync e =>
        let r := errorStep s idx e q.onerror
        ⟨r.state, Ev.execOp idx :: r.events, r.thrown⟩
    | [] =>
      -- i ≥ length of the live list: all requests in the transaction are done
      let s1 := { s with requests := [] }
      if s1.active then
        let r := transactionFinished { s1 with active := false }
        ⟨r.state, r.events, r.thrown⟩
      else
        ⟨s1, [], none⟩

/-- Transcription of `IDBTransaction.prototype.__executeRequests`: a no-op if
already running, otherwise sets `__running` and drains the queue.  The source
passes a second callback `webSqlError(err) { transactionError(err); }` to
`db.transaction`: an exception escaping the drain (a throwing handler, or the
rethrows of `transactionFinished` / `transactionError`) fails the backend
transaction, whose error callback routes the exception to
`transactionError`.  That recovery round is modelled here; an exception
thrown by `transactionError` itself from inside `webSqlError` is uncaught. -/
def executeRequests (fuel : Nat) (s : TxState) : StepOut :=
  if s.running then ⟨s, [], none⟩
  else
    let r := drain fuel { s with running := true }
    match r.thrown with
    | none => r
    | some err =>
      let t := transactionError r.state err
      ⟨t.state, r.events ++ t.events, t.thrown⟩

/-- The deferred `onabort` callbacks (scheduled by `abort()` via `setTimeout`)
fire after the current scheduling turn, one `abort` event per `abort()`
call. -/
def flushAborts (s : TxState) : List Ev :=
  List.replicate s.pendingAborts Ev.txAbort

/-- One full run of the transaction: the deferred start fires
`__executeRequests`, and afterwards any scheduled `onabort` callbacks fire. -/
def runTx (fuel : Nat) (s : TxState) : StepOut :=
  let r := executeRequests fuel s
  ⟨r.state, r.events ++ flushAborts r.state, r.thrown⟩

/-- A freshly constructed transaction holding the given queue
(`__active = true`, `__running = false`, `__errored = false`). -/
def initState (items : List QItem) (oc : HAct) : TxState :=
  { requests := items, i := 0, active := true, running := false,
    errored := false, errVal := none, pendingAborts := 0, oncomplete := oc }

/-- A queue whose handlers do nothing (the plain API usage: no handler
throws, aborts, or enqueues). -/
def benignQueue (bs : List OpBehavior) : List QItem :=
  bs.map (fun b => mkItem b HAct.nop HAct.nop)

/-- Run a fresh transaction over a benign queue (fuel is exactly enough:
one unit per operation plus the terminal step). -/
def runBenign (bs : List OpBehavior) : StepOut :=
  runTx (bs.length + 1) (initState (benignQueue bs) HAct.nop)

/-! ### Canonical traces of benign runs -/

/-- Whether some operation in the list fails (invokes `error` or throws). -/
def hasFailure : List OpBehavior → Bool
  | [] => false
  | OpBehavior.succeed _ :: rest => hasFailure rest
  | OpBehavior.fail _ :: _ => true
  | OpBehavior.throwSync _ :: _ => true

/-- The error of the first failing operation, if any. -/
def firstErr : List OpBehavior → Option String
  | [] => none
  | OpBehavior.succeed _ :: rest => firstErr rest
  | OpBehavior.fail e :: _ => some e
  | OpBehavior.throwSync e :: _ => some e

/-- The event trace a benign queue produces when drained starting at index
`i` with `__active = act`: each successful operation contributes
`execOp, reqSuccess` and the drain advances; the first failing operation
contributes `execOp, reqError` (plus the transaction-level `txError` when the
transaction is still active) and the drain stops; a fully drained queue ends
with `txComplete` when still active. -/
def benignTrace (act : Bool) : Nat → List OpBehavior → List Ev
  | _, [] => if act then [Ev.txComplete] else []
  | i, OpBehavior.succeed _ :: rest =>
    Ev.execOp i :: Ev.reqSuccess i :: benignTrace act (i + 1) rest
  | i, OpBehavior.fail _ :: _ =>
    Ev.execOp i :: Ev.reqError i :: (if act then [Ev.txError] else [])
  | i, OpBehavior.throwSync _ :: _ =>
    Ev.execOp i :: Ev.reqError i :: (if act then [Ev.txError] else [])

/-- The call `IDBObjectStore.prototype.add` as seen by the transaction: the synchronous
checks (`__validateKey`, then `__assertWritable`), then
`__createRequest` / `__pushToQueue`.  Any thrown check error aborts the call
before anything is enqueued.  The queued unit of work is abstracted by its
backend outcome `b`. -/
def addCall (s : TxState) (store : ObjectStore) (mode : TxMode) (value : JsVal)
    (key : Option JsVal) (b : OpBehavior) : Except String TxState :=
  match validateKey store value key with
  | Except.error e => Except.error e
  | Except.ok _ =>
    match assertWritable mode with
    | Except.error e => Except.error e
    | Except.ok _ => pushToQueue s (mkItem b HAct.nop HAct.nop)

/-- The call `IDBObjectStore.prototype.put` as seen by the transaction; the source
performs the identical synchronous sequence. -/
def putCall (s : TxState) (store : ObjectStore) (mode : TxMode) (value : JsVal)
    (key : Option JsVal) (b : OpBehavior) : Except String TxState :=
  match validateKey store value key with
  | Except.error e => Except.error e
  | Except.ok _ =>
    match assertWritable mode with
    | Except.error e => Except.error e
    | Except.ok _ => pushToQueue s (mkItem b HAct.nop HAct.nop)

/-- The per-operation events: execution start and request resolution
(other events — transaction-level notifications — are filtered out when
stating ordering properties). -/
def isOpEv : Ev → Bool
  | Ev.execOp _ => true
  | Ev.reqSuccess _ => true
  | Ev.reqError _ => true
  | _ => false

/-- The index an event talks about, if it is a per-operation event. -/
def evIdx : Ev → Option Nat
  | Ev.execOp k => some k
  | Ev.reqSuccess k => some k
  | Ev.reqError k => some k
  | _ => none

/-- Strictly sequential per-operation traces starting at index `i`: operation
`i` begins, then resolves (success or error) before anything else happens;
after a success the trace continues with operation `i + 1`; after an error
nothing further runs. -/
inductive Sequenced : Nat → List Ev → Prop where
  | done : ∀ i, Sequenced i []
  | stepSuccess : ∀ i rest, Sequenced (i + 1) rest →
      Sequenced i (Ev.execOp i :: Ev.reqSuccess i :: rest)
  | stepError : ∀ i, Sequenced i [Ev.execOp i, Ev.reqError i]

/-- Handler actions that do not invoke the transaction's `abort()`. -/
def noAbortAct : HAct → Bool
  | HAct.abortCall => false
  | _ => true

/-- A queued item none of whose handlers invokes `abort()`. -/
def noAbortItem (q : QItem) : Bool :=
  noAbortAct q.onsuccess && noAbortAct q.onerror

/-- A transaction none of whose user handlers invokes `abort()`. -/
def noAbortState (s : TxState) : Bool :=
  s.requests.all noAbortItem && noAbortAct s.oncomplete

/-- Fuel needed by one queued item: an item whose success handler enqueues
another operation costs two drain steps (itself plus the benign item it
appends), any other item one. -/
def opWeight (q : QItem) : Nat :=
  match q.onsuccess with
  | HAct.enq _ => 2
  | _ => 1

/-- Fuel needed by the not-yet-executed part of the queue. -/
def queueWeight (s : TxState) : Nat :=
  ((s.requests.drop s.i).map opWeight).sum

theorem modifyAt_append (pre : List α) (x : α) (tail : List α) (f : α → α) :
    modifyAt (pre ++ x :: tail) pre.length f = pre ++ f x :: tail := by
  induction pre with
  | nil => rfl
  | cons a l ih => simp [modifyAt, ih]

theorem drop_left_append (pre tail : List α) : (pre ++ tail).drop pre.length = tail := by
  induction pre with
  | nil => rfl
  | cons a l ih => exact ih

/-- Structure of a benign drain, by induction on the remaining queue: the
events are the canonical trace; the transaction always ends inactive; it ends
errored exactly when some operation failed; one `onabort` is scheduled
exactly when a failure occurred while the transaction was still active; and
an error is thrown outward exactly when a failure occurred after the
transaction had already been deactivated. -/
theorem drain_benign (bs : List OpBehavior) :
    ∀ (pre : List QItem) (act run : Bool) (ev : Option String) (pa : Nat),
    (drain (bs.length + 1)
        ⟨pre ++ benignQueue bs, pre.length, act, run, false, ev, pa, HAct.nop⟩).events
        = benignTrace act pre.length bs ∧
    (drain (bs.length + 1)
        ⟨pre ++ benignQueue bs, pre.length, act, run, false, ev, pa, HAct.nop⟩).state.active
        = false ∧
    (drain (bs.length + 1)
        ⟨pre ++ benignQueue bs, pre.length, act, run, false, ev, pa, HAct.nop⟩).state.errored
        = hasFailure bs ∧
    (drain (bs.length + 1)
        ⟨pre ++ benignQueue bs, pre.length, act, run, false, ev, pa, HAct.nop⟩).state.pendingAborts
        = pa + (if act = true ∧ hasFailure bs = true then 1 else 0) ∧
    (drain (bs.length + 1)
        ⟨pre ++ benignQueue bs, pre.length, act, run, false, ev, pa, HAct.nop⟩).thrown
        = (if act then none else firstErr bs) := by
  induction bs with
  | nil =>
    intro pre act run ev pa
    rw [drain]
    cases act with
    | false =>
      simp [benignQueue, benignTrace, hasFailure, firstErr, List.drop_length]
    | true =>
      simp [benignQueue, benignTrace, hasFailure, firstErr, List.drop_length,
        transactionFinished]
  | cons b rest ih =>
    intro pre act run ev pa
    rw [drain]
    cases b with
    | succeed v =>
      have hstep := ih
        (pre ++ [(⟨OpBehavior.succeed v, HAct.nop, HAct.nop, "done", some v, none⟩ : QItem)])
        act run ev pa
      simp only [benignQueue, List.append_assoc, List.singleton_append,
        List.length_append, List.length_singleton, mkItem] at hstep
      simp [benignQueue, List.map_cons, drop_left_append, mkItem, setReqDone,
        modifyAt_append, benignTrace, hasFailure, firstErr,
        hstep.1, hstep.2.1, hstep.2.2.1, hstep.2.2.2.1, hstep.2.2.2.2]
    | fail e =>
      cases act with
      | true =>
        simp [benignQueue, List.map_cons, drop_left_append, mkItem, errorStep,
          setReqFailed, modifyAt_append, transactionError, abortTx,
          benignTrace, hasFailure, firstErr]
      | false =>
        simp [benignQueue, List.map_cons, drop_left_append, mkItem, errorStep,
          setReqFailed, modifyAt_append, transactionError,
          benignTrace, hasFailure, firstErr]
    | throwSync e =>
      cases act with
      | true =>
        simp [benignQueue, List.map_cons, drop_left_append, mkItem, errorStep,
          setReqFailed, modifyAt_append, transactionError, abortTx,
          benignTrace, hasFailure, firstErr]
      | false =>
        simp [benignQueue, List.map_cons, drop_left_append, mkItem, errorStep,
          setReqFailed, modifyAt_append, transactionError,
          benignTrace, hasFailure, firstErr]

/-- A benign run from a fresh transaction: canonical trace (plus one deferred
abort notification exactly when an operation failed), final inactivity, and
the errored flag recording whether a failure occurred. -/
theorem runBenign_spec (bs : List OpBehavior) :
    (runBenign bs).events
      = benignTrace true 0 bs
        ++ List.replicate (if hasFailure bs then 1 else 0) Ev.txAbort ∧
    (runBenign bs).state.active = false ∧
    (runBenign bs).state.errored = hasFailure bs := by
  have h := drain_benign bs [] true true none 0
  simp only [List.nil_append, List.length_nil] at h
  constructor
  · simp [runBenign, runTx, executeRequests, initState, flushAborts,
      h.1, h.2.2.2.1, h.2.2.2.2]
  constructor
  · simp [runBenign, runTx, executeRequests, initState, h.2.1, h.2.2.2.2]
  · simp [runBenign, runTx, executeRequests, initState, h.2.2.1, h.2.2.2.2]

/-- Once `__errored` is set, `transactionError` is a complete no-op: same
state, no events, nothing thrown. -/
theorem transactionError_noop (s : TxState) (e : String) (h : s.errored = true) :
    transactionError s e = ⟨s, [], none⟩ := by
  simp [transactionError, h]

theorem hasFailure_of_firstErr (bs : List OpBehavior) (e : String)
    (h : firstErr bs = some e) : hasFailure bs = true := by
  induction bs with
  | nil => exact Option.noConfusion h
  | cons b rest ih =>
    cases b with
    | succeed v => simpa [hasFailure] using ih (by simpa [firstErr] using h)
    | fail e2 => rfl
    | throwSync e2 => rfl

/-- A benign run whose transaction was aborted before the deferred start
fired: the drain still runs every operation it reaches, and the single
deferred abort notification fires after the drain.  (When an operation fails
after the abort, the drain's thrown error is routed to `transactionError`,
which is a no-op by then: the transaction is already errored.) -/
theorem runAbortFirst_spec (bs : List OpBehavior) :
    (runTx (bs.length + 1) (abortTx (initState (benignQueue bs) HAct.nop))).events
      = benignTrace false 0 bs ++ [Ev.txAbort] := by
  have h := drain_benign bs [] false true none 1
  simp only [List.nil_append, List.length_nil] at h
  cases hfe : firstErr bs with
  | none =>
    simp [runTx, executeRequests, initState, abortTx, flushAborts, h.1,
      h.2.2.2.1, h.2.2.2.2, hfe]
  | some e =>
    have herr := h.2.2.1
    rw [hasFailure_of_firstErr bs e hfe] at herr
    simp [runTx, executeRequests, initState, abortTx, flushAborts, h.1,
      h.2.2.2.1, h.2.2.2.2, hfe, transactionError_noop _ _ herr]

/-- The per-operation events of a benign canonical trace are strictly
sequential. -/
theorem benignTrace_sequenced (bs : List OpBehavior) :
    ∀ (act : Bool) (i : Nat), Sequenced i ((benignTrace act i bs).filter isOpEv) := by
  induction bs with
  | nil =>
    intro act i
    cases act <;> simpa [benignTrace, isOpEv] using Sequenced.done i
  | cons b rest ih =>
    intro act i
    cases b with
    | succeed v =>
      simpa [benignTrace, isOpEv] using
        Sequenced.stepSuccess i _ (ih act (i + 1))
    | fail e =>
      cases act <;> simpa [benignTrace, isOpEv] using Sequenced.stepError i
    | throwSync e =>
      cases act <;> simpa [benignTrace, isOpEv] using Sequenced.stepError i

/-- Terminal-notification counts of a benign canonical trace. -/
theorem benignTrace_counts (bs : List OpBehavior) :
    ∀ (act : Bool) (i : Nat),
    (benignTrace act i bs).count Ev.txComplete
      = (if act ∧ ¬ hasFailure bs then 1 else 0) ∧
    (benignTrace act i bs).count Ev.txError
      = (if act ∧ hasFailure bs then 1 else 0) ∧
    (benignTrace act i bs).count Ev.txAbort = 0 := by
  induction bs with
  | nil =>
    intro act i
    cases act <;> simp [benignTrace, hasFailure]
  | cons b rest ih =>
    intro act i
    cases b with
    | succeed v =>
      have h := ih act (i + 1)
      simp [benignTrace, hasFailure, List.count_cons, h.1, h.2.1, h.2.2]
    | fail e =>
      cases act <;> simp [benignTrace, hasFailure, List.count_cons]
    | throwSync e =>
      cases act <;> simp [benignTrace, hasFailure, List.count_cons]

/-- Every operation of a failure-free benign queue has its execution event in
the canonical trace. -/
theorem benignTrace_mem_exec (bs : List OpBehavior) :
    ∀ (act : Bool) (i j : Nat), hasFailure bs = false → j < bs.length →
    Ev.execOp (i + j) ∈ benignTrace act i bs := by
  induction bs with
  | nil =>
    intro act i j _ hj
    simp at hj
  | cons b rest ih =>
    intro act i j hf hj
    cases b with
    | succeed v =>
      cases j with
      | zero => simp [benignTrace]
      | succ m =>
        have hm : Ev.execOp (i + 1 + m) ∈ benignTrace act (i + 1) rest :=
          ih act (i + 1) m (by simpa [hasFailure] using hf)
            (by simpa using Nat.lt_of_succ_lt_succ hj)
        have : i + 1 + m = i + (m + 1) := by omega
        rw [this] at hm
        simp [benignTrace, hm]
    | fail e => simp [hasFailure] at hf
    | throwSync e => simp [hasFailure] at hf

/-- In a benign canonical trace of a queue that fails at position
`pre.length`, every per-operation event concerns an index at most
`i + pre.length`: nothing past the failing operation ever runs or
resolves. -/
theorem benignTrace_fail_bound (pre : List OpBehavior) :
    ∀ (act : Bool) (i : Nat) (e : String) (post : List OpBehavior),
    hasFailure pre = false →
    ∀ ev ∈ benignTrace act i (pre ++ OpBehavior.fail e :: post),
    ∀ k, evIdx ev = some k → k ≤ i + pre.length := by
  induction pre with
  | nil =>
    intro act i e post _ ev hev k hk
    cases act with
    | false =>
      simp [benignTrace] at hev
      rcases hev with h | h <;> subst h <;> simp [evIdx] at hk <;> omega
    | true =>
      simp [benignTrace] at hev
      rcases hev with h | h | h <;> subst h <;> simp [evIdx] at hk <;> omega
  | cons b rest ih =>
    intro act i e post hf ev hev k hk
    cases b with
    | succeed v =>
      simp [benignTrace] at hev
      rcases hev with h | h | h
      · subst h; simp [evIdx] at hk; omega
      · subst h; simp [evIdx] at hk; omega
      · have := ih act (i + 1) e post (by simpa [hasFailure] using hf) ev h k hk
        simp [List.length_cons]
        omega
    | fail e2 => simp [hasFailure] at hf
    | throwSync e2 => simp [hasFailure] at hf

/-- A queue containing a failing operation has a failure. -/
theorem hasFailure_append_fail (pre : List OpBehavior) (e : String)
    (post : List OpBehavior) :
    hasFailure (pre ++ OpBehavior.fail e :: post) = true := by
  induction pre with
  | nil => rfl
  | cons b rest ih => cases b <;> simpa [hasFailure] using ih

/-- The finalizer `transactionError` fires no abort notification synchronously. -/
theorem txAbort_notin_transactionError (s : TxState) (e : String) :
    Ev.txAbort ∉ (transactionError s e).events := by
  rw [transactionError]
  split_ifs <;> simp

/-- The finalizer `transactionFinished` fires no abort notification synchronously. -/
theorem txAbort_notin_transactionFinished (s : TxState) :
    Ev.txAbort ∉ (transactionFinished s).events := by
  rw [transactionFinished]
  cases h : s.oncomplete <;> simp [pushToQueue] <;> split_ifs <;> simp

/-- The `error` continuation fires no abort notification synchronously. -/
theorem txAbort_notin_errorStep (s : TxState) (idx : Nat) (err : String)
    (h : HAct) : Ev.txAbort ∉ (errorStep s idx err h).events := by
  cases h <;> simp [errorStep, txAbort_notin_transactionError]

/-- No abort notification fires during the drain itself: `abort()` only ever
schedules it for a later turn. -/
theorem txAbort_notin_drain : ∀ (fuel : Nat) (s : TxState),
    Ev.txAbort ∉ (drain fuel s).events := by
  intro fuel
  induction fuel with
  | zero => intro s; simp [drain]
  | succ n ih =>
    intro s
    rw [drain]
    cases hd : s.requests.drop s.i with
    | nil =>
      cases ha : s.active <;>
        simp [ha, txAbort_notin_transactionFinished]
    | cons q t =>
      cases hb : q.behavior with
      | succeed v =>
        cases hs : q.onsuccess <;>
          simp [hb, hs, ih, pushToQueue] <;> split_ifs <;> simp [ih]
      | fail e =>
        simp [hb, txAbort_notin_errorStep]
      | throwSync e =>
        simp [hb, txAbort_notin_errorStep]

theorem getElem?_modifyAt (l : List α) : ∀ (n : Nat) (f : α → α),
    (modifyAt l n f)[n]? = l[n]?.map f := by
  induction l with
  | nil => intro n f; cases n <;> simp [modifyAt]
  | cons a t ih =>
    intro n f
    cases n with
    | zero => simp [modifyAt]
    | succ m => simpa [modifyAt] using ih m f

theorem transactionFinished_errored (s : TxState) (h : s.errored = true) :
    (transactionFinished s).state.errored = true := by
  cases hc : s.oncomplete <;>
    simp [transactionFinished, hc, abortTx, pushToQueue, h]
  split_ifs <;> simp [h]

theorem errorStep_errored (s : TxState) (idx : Nat) (err : String) (h : HAct)
    (he : s.errored = true) : (errorStep s idx err h).state.errored = true := by
  cases h <;>
    simp [errorStep, transactionError, setReqFailed, abortTx, pushToQueue, he]
  split_ifs <;> simp [transactionError, he]

/-- The `__errored` flag is sticky across the whole drain: nothing ever
clears it. -/
theorem drain_errored_mono : ∀ (fuel : Nat) (s : TxState), s.errored = true →
    (drain fuel s).state.errored = true := by
  intro fuel
  induction fuel with
  | zero => intro s h; simpa [drain] using h
  | succ n ih =>
    intro s h
    rw [drain]
    cases hd : s.requests.drop s.i with
    | nil =>
      cases ha : s.active with
      | false => simpa [ha] using h
      | true =>
        simpa [ha] using transactionFinished_errored _ (by simpa using h)
    | cons q t =>
      cases hb : q.behavior with
      | succeed v =>
        cases hs : q.onsuccess with
        | nop => simpa [hb, hs] using ih _ (by simpa [setReqDone] using h)
        | throws e => simpa [hb, hs, setReqDone] using h
        | abortCall =>
          simpa [hb, hs] using ih _ (by simpa [abortTx, setReqDone] using h)
        | enq b =>
          simp only [hb, hs, pushToQueue, setReqDone]
          split_ifs with hact
          · simpa using ih _ (by simpa using h)
          · simpa using h
      | fail e => simpa [hb] using errorStep_errored _ _ _ _ h
      | throwSync e => simpa [hb] using errorStep_errored _ _ _ _ h

theorem mem_of_drop_cons : ∀ (l : List α) (n : Nat) (q : α) (t : List α),
    l.drop n = q :: t → q ∈ l := by
  intro l
  induction l with
  | nil => intro n q t h; simp at h
  | cons a l' ih =>
    intro n q t h
    cases n with
    | zero =>
      simp at h
      obtain ⟨h1, _⟩ := h
      subst h1
      exact List.mem_cons_self a l'
    | succ m => exact List.mem_cons_of_mem a (ih m q t (by simpa using h))

theorem lt_length_of_drop_cons (l : List α) (n : Nat) (q : α) (t : List α)
    (h : l.drop n = q :: t) : n < l.length := by
  by_contra hn
  push_neg at hn
  rw [List.drop_eq_nil_of_le hn] at h
  exact List.noConfusion h

theorem drop_succ_of_drop_cons (l : List α) (n : Nat) (q : α) (t : List α)
    (h : l.drop n = q :: t) : l.drop (n + 1) = t := by
  have h2 : (l.drop n).drop 1 = t := by rw [h]; rfl
  rw [List.drop_drop] at h2
  simpa [Nat.add_comm] using h2

theorem modifyAt_length (l : List α) : ∀ (n : Nat) (f : α → α),
    (modifyAt l n f).length = l.length := by
  induction l with
  | nil => intro n f; rfl
  | cons a t ih =>
    intro n f
    cases n with
    | zero => rfl
    | succ m => simpa [modifyAt] using ih m f

theorem modifyAt_drop_succ (l : List α) : ∀ (n : Nat) (f : α → α),
    (modifyAt l n f).drop (n + 1) = l.drop (n + 1) := by
  induction l with
  | nil => intro n f; rfl
  | cons a t ih =>
    intro n f
    cases n with
    | zero => rfl
    | succ m => simpa [modifyAt] using ih m f

theorem modifyAt_all (l : List α) (p : α → Bool) : ∀ (n : Nat) (f : α → α),
    (∀ x, p (f x) = p x) → (modifyAt l n f).all p = l.all p := by
  induction l with
  | nil => intro n f _; rfl
  | cons a t ih =>
    intro n f hf
    cases n with
    | zero => simp [modifyAt, hf]
    | succ m => simp [modifyAt, ih m f hf]

/-- The finalizer `transactionFinished` fires exactly the completion notification,
whatever the handler then does. -/
theorem transactionFinished_events (s : TxState) :
    (transactionFinished s).events = [Ev.txComplete] := by
  cases h : s.oncomplete with
  | nop => simp [transactionFinished, h]
  | throws e => simp [transactionFinished, h]
  | abortCall => simp [transactionFinished, h]
  | enq b =>
    cases hact : s.active <;>
      simp [transactionFinished, h, pushToQueue, hact]

/-- The per-operation events of the error continuation are exactly the one
failure notification of the failed request. -/
theorem errorStep_events_filter (s : TxState) (idx : Nat) (err : String)
    (h : HAct) : (errorStep s idx err h).events.filter isOpEv = [Ev.reqError idx] := by
  have ht : ∀ (t : TxState) (e : String),
      (transactionError t e).events.filter isOpEv = [] := by
    intro t e
    rw [transactionError]
    split_ifs <;> simp [isOpEv]
  cases h <;> simp [errorStep, isOpEv, ht]

/-- Sequential execution, for every state and every combination of handler
behaviors: the per-operation events of any drain form the strictly
sequential pattern starting at the current index. -/
theorem drain_sequenced : ∀ (fuel : Nat) (s : TxState),
    Sequenced s.i ((drain fuel s).events.filter isOpEv) := by
  intro fuel
  induction fuel with
  | zero => intro s; simpa [drain] using Sequenced.done s.i
  | succ n ih =>
    intro s
    rw [drain]
    cases hd : s.requests.drop s.i with
    | nil =>
      cases ha : s.active with
      | false => simpa [ha] using Sequenced.done s.i
      | true =>
        simpa [ha, transactionFinished_events, isOpEv] using Sequenced.done s.i
    | cons q t =>
      cases hb : q.behavior with
      | succeed v =>
        cases hs : q.onsuccess with
        | nop =>
          have hrec := ih { setReqDone s s.i v with i := s.i + 1 }
          simpa [hb, hs, isOpEv] using
            Sequenced.stepSuccess s.i _ (by simpa using hrec)
        | throws e =>
          simpa [hb, hs, isOpEv] using
            Sequenced.stepSuccess s.i [] (Sequenced.done (s.i + 1))
        | abortCall =>
          have hrec := ih { abortTx (setReqDone s s.i v) with i := s.i + 1 }
          simpa [hb, hs, isOpEv] using
            Sequenced.stepSuccess s.i _ (by simpa using hrec)
        | enq b =>
          cases hact : s.active with
          | true =>
            have hrec := ih
              { (setReqDone s s.i v) with
                requests := (setReqDone s s.i v).requests
                  ++ [mkItem b HAct.nop HAct.nop],
                i := s.i + 1 }
            simpa [hb, hs, pushToQueue, setReqDone, hact, isOpEv] using
              Sequenced.stepSuccess s.i _ (by simpa [setReqDone, hact] using hrec)
          | false =>
            simpa [hb, hs, pushToQueue, setReqDone, hact, isOpEv] using
              Sequenced.stepSuccess s.i [] (Sequenced.done (s.i + 1))
      | fail e =>
        simpa [hb, errorStep_events_filter, isOpEv] using Sequenced.stepError s.i
      | throwSync e =>
        simpa [hb, errorStep_events_filter, isOpEv] using Sequenced.stepError s.i

/-- Terminal-notification accounting for a drain whose handlers never call
`abort()`, starting from an active, non-errored state with sufficient fuel.
Either the drain ends with no escaping exception, having fired exactly one
terminal notification (complete, or error with one scheduled abort); or an
exception escapes after a terminal notification already fired (the
transaction is errored, so the backend recovery round will be a no-op); or
an exception escapes from a success handler before any terminal notification
(the transaction still active and non-errored, so the backend recovery round
will fire the error path). -/
theorem drain_noabort : ∀ (fuel : Nat) (s : TxState),
    queueWeight s < fuel →
    noAbortState s = true → s.active = true → s.errored = false →
    ((drain fuel s).thrown = none →
      (drain fuel s).events.count Ev.txComplete
        + (drain fuel s).events.count Ev.txError = 1 ∧
      (drain fuel s).state.pendingAborts
        = s.pendingAborts + (drain fuel s).events.count Ev.txError) ∧
    (∀ e, (drain fuel s).thrown = some e →
      ((drain fuel s).events.count Ev.txComplete
          + (drain fuel s).events.count Ev.txError = 1 ∧
        (drain fuel s).state.errored = true ∧
        (drain fuel s).state.pendingAborts
          = s.pendingAborts + (drain fuel s).events.count Ev.txError) ∨
      ((drain fuel s).events.count Ev.txComplete = 0 ∧
        (drain fuel s).events.count Ev.txError = 0 ∧
        (drain fuel s).state.errored = false ∧
        (drain fuel s).state.active = true ∧
        (drain fuel s).state.pendingAborts = s.pendingAborts)) := by
  intro fuel
  induction fuel with
  | zero => intro s hw hna ha he; exact absurd hw (by omega)
  | succ n ih =>
    intro s hw hna ha he
    have hnaq : s.requests.all noAbortItem = true := by
      have h := hna
      simp only [noAbortState, Bool.and_eq_true] at h
      exact h.1
    have hnac : noAbortAct s.oncomplete = true := by
      have h := hna
      simp only [noAbortState, Bool.and_eq_true] at h
      exact h.2
    rw [drain]
    cases hd : s.requests.drop s.i with
    | nil =>
      cases hc : s.oncomplete with
      | nop => simp [hd, ha, hc, transactionFinished]
      | throws e2 => simp [hd, ha, hc, transactionFinished]
      | abortCall => simp [hc, noAbortAct] at hnac
      | enq b => simp [hd, ha, hc, transactionFinished, pushToQueue]
    | cons q t =>
      have hq : noAbortItem q = true :=
        (List.all_eq_true.mp hnaq) q (mem_of_drop_cons _ _ _ _ hd)
      have hnos : noAbortAct q.onsuccess = true ∧ noAbortAct q.onerror = true := by
        simpa [noAbortItem, Bool.and_eq_true] using hq
      have hilt : s.i < s.requests.length := lt_length_of_drop_cons _ _ _ _ hd
      have hdrop1 : s.requests.drop (s.i + 1) = t := drop_succ_of_drop_cons _ _ _ _ hd
      have hwq : queueWeight s = opWeight q + (t.map opWeight).sum := by
        simp [queueWeight, hd]
      cases hb : q.behavior with
      | succeed v =>
        cases hs : q.onsuccess with
        | nop =>
          have how : opWeight q = 1 := by simp [opWeight, hs]
          have hqw2 : queueWeight { setReqDone s s.i v with i := s.i + 1 }
              = (t.map opWeight).sum := by
            simp [queueWeight, setReqDone, modifyAt_drop_succ, hdrop1]
          have hall : (modifyAt s.requests s.i (fun q =>
              { q with readyState := "done", result := some v, errVal := none })).all
              noAbortItem = s.requests.all noAbortItem :=
            modifyAt_all s.requests noAbortItem s.i _ (fun x => rfl)
          have hrec := ih { setReqDone s s.i v with i := s.i + 1 }
            (by rw [hqw2]; omega)
            (by simpa [noAbortState, setReqDone, hall] using hna)
            (by simpa [setReqDone] using ha)
            (by simpa [setReqDone] using he)
          simpa [hd, hb, hs, List.count_cons, setReqDone] using hrec
        | throws e2 =>
          simp [hd, hb, hs, setReqDone, List.count_cons, ha, he]
        | abortCall => simp [hs, noAbortAct] at hnos
        | enq b2 =>
          have how : opWeight q = 2 := by simp [opWeight, hs]
          have hact' : (setReqDone s s.i v).active = true := by
            simpa [setReqDone] using ha
          have hle : s.i + 1 ≤ (modifyAt s.requests s.i (fun q =>
              { q with readyState := "done", result := some v, errVal := none })).length := by
            rw [modifyAt_length]
            omega
          have hqw2 : queueWeight
              { setReqDone s s.i v with
                requests := (setReqDone s s.i v).requests
                  ++ [mkItem b2 HAct.nop HAct.nop],
                i := s.i + 1 }
              = (t.map opWeight).sum + 1 := by
            simp [queueWeight, setReqDone, List.drop_append_of_le_length hle,
              modifyAt_drop_succ, hdrop1, opWeight, mkItem]
          have hall : (modifyAt s.requests s.i (fun q =>
              { q with readyState := "done", result := some v, errVal := none })).all
              noAbortItem = s.requests.all noAbortItem :=
            modifyAt_all s.requests noAbortItem s.i _ (fun x => rfl)
          have hrec := ih
            { setReqDone s s.i v with
              requests := (setReqDone s s.i v).requests
                ++ [mkItem b2 HAct.nop HAct.nop],
              i := s.i + 1 }
            (by rw [hqw2]; omega)
            (by simpa [noAbortState, setReqDone, List.all_append, hall,
                mkItem, noAbortItem, noAbortAct] using hna)
            (by simpa [setReqDone] using ha)
            (by simpa [setReqDone] using he)
          simpa [hd, hb, hs, pushToQueue, ha, hact', List.count_cons, setReqDone]
            using hrec
      | fail e =>
        cases hr2 : q.onerror with
        | nop =>
          simp [hd, hb, hr2, errorStep, setReqFailed, transactionError, abortTx,
            ha, he, List.count_cons]
        | throws e2 =>
          simp [hd, hb, hr2, errorStep, setReqFailed, transactionError, abortTx,
            ha, he, List.count_cons]
        | abortCall => simp [hr2, noAbortAct] at hnos
        | enq b2 =>
          have hact' : (setReqFailed s s.i e).active = true := by
            simpa [setReqFailed] using ha
          simp [hd, hb, hr2, errorStep, setReqFailed, transactionError, abortTx,
            pushToQueue, hact', ha, he, List.count_cons]
      | throwSync e =>
        cases hr2 : q.onerror with
        | nop =>
          simp [hd, hb, hr2, errorStep, setReqFailed, transactionError, abortTx,
            ha, he, List.count_cons]
        | throws e2 =>
          simp [hd, hb, hr2, errorStep, setReqFailed, transactionError, abortTx,
            ha, he, List.count_cons]
        | abortCall => simp [hr2, noAbortAct] at hnos
        | enq b2 =>
          have hact' : (setReqFailed s s.i e).active = true := by
            simpa [setReqFailed] using ha
          simp [hd, hb, hr2, errorStep, setReqFailed, transactionError, abortTx,
            pushToQueue, hact', ha, he, List.count_cons]

/-- No abort notification fires during `__executeRequests` itself, the
backend recovery round included. -/
theorem txAbort_notin_executeRequests (fuel : Nat) (s : TxState) :
    Ev.txAbort ∉ (executeRequests fuel s).events := by
  rw [executeRequests]
  split_ifs
  · simp
  · cases ht : (drain fuel { s with running := true }).thrown with
    | none =>
      simpa [ht] using txAbort_notin_drain fuel { s with running := true }
    | some err =>
      simp only [ht, List.mem_append, not_or]
      exact ⟨txAbort_notin_drain fuel _, txAbort_notin_transactionError _ err⟩

theorem count_replicate_txAbort (n : Nat) :
    (List.replicate n Ev.txAbort).count Ev.txComplete = 0 ∧
    (List.replicate n Ev.txAbort).count Ev.txError = 0 ∧
    (List.replicate n Ev.txAbort).count Ev.txAbort = n := by
  induction n with
  | zero => simp
  | succ m ih =>
    simp [List.replicate_succ, List.count_cons, ih.1, ih.2.1, ih.2.2]

/-- One `__executeRequests` turn from a fresh-enough transaction whose
handlers never call `abort()` fires exactly one terminal notification
(complete or error), schedules one deferred abort per error notification,
and fires no abort notification itself. -/
theorem executeRequests_noabort (fuel : Nat) (s : TxState)
    (hw : queueWeight s < fuel) (hna : noAbortState s = true)
    (ha : s.active = true) (he : s.errored = false) (hr : s.running = false) :
    (executeRequests fuel s).events.count Ev.txComplete
      + (executeRequests fuel s).events.count Ev.txError = 1 ∧
    (executeRequests fuel s).state.pendingAborts
      = s.pendingAborts + (executeRequests fuel s).events.count Ev.txError := by
  have hD := drain_noabort fuel { s with running := true }
    (by simpa [queueWeight] using hw) (by simpa [noAbortState] using hna)
    (by simpa using ha) (by simpa using he)
  rw [executeRequests]
  split_ifs with hrun
  · rw [hr] at hrun
    exact Bool.noConfusion hrun
  · cases ht : (drain fuel { s with running := true }).thrown with
    | none =>
      have h1 := hD.1 ht
      simp only [ht]
      exact ⟨h1.1, by simpa using h1.2⟩
    | some err =>
      rcases hD.2 err ht with ⟨hc, herr, hpa⟩ | ⟨hc0, he0, herr0, hact0, hpa0⟩
      · simp [ht, transactionError_noop _ _ herr, List.count_append, hc]
        simpa using hpa
      · have htr : transactionError
            (drain fuel { s with running := true }).state err
            = ⟨abortTx { (drain fuel { s with running := true }).state with
                errored := true, errVal := some err }, [Ev.txError], none⟩ := by
          simp [transactionError, herr0, hact0]
        simp [ht, htr, List.count_append, List.count_cons, hc0, he0, abortTx]
        simpa using hpa0

theorem any_filter_not_key (tbl : Table) (k : Int) :
    (tbl.filter (fun r => ¬ r.1 = k)).any (fun r => r.1 = k) = false := by
  induction tbl with
  | nil => rfl
  | cons a t ih =>
    by_cases ha : a.1 = k
    · simpa [List.filter_cons, ha] using ih
    · simpa [List.filter_cons, ha] using ih

/-! ### The claims -/

/-- C1: within one transaction the scheduler runs queued operations strictly
in enqueue order, one at a time: the per-operation events of any drain — for
every queue and every combination of handler behaviors — form the strictly
sequential pattern `exec i, resolve i, exec i+1, resolve i+1, …`: each
operation's result handle is resolved (its success or error notification
fires) before the next operation's procedure begins, no two operations are
ever in flight at once, and after a failed operation nothing further runs.
In particular a full fresh run over any queue is sequential from index 0. -/
theorem c1_sequential_execution :
    (∀ (fuel : Nat) (s : TxState),
      Sequenced s.i ((drain fuel s).events.filter isOpEv)) ∧
    (∀ bs : List OpBehavior, Sequenced 0 ((runBenign bs).events.filter isOpEv)) := by
  refine ⟨drain_sequenced, ?_⟩
  intro bs
  have h := (runBenign_spec bs).1
  rw [h, List.filter_append]
  have hrep : (List.replicate (if hasFailure bs then 1 else 0) Ev.txAbort).filter
      isOpEv = [] := by
    split_ifs <;> simp [isOpEv]
  rw [hrep, List.append_nil]
  exact benignTrace_sequenced bs true 0

/-- C2: when add/put must generate a key on an auto-increment store, the
derived primary key is `1` when the backend's sequence lookup returns no row
and the recorded sequence value plus one otherwise; across an insert (which
advances the recorded sequence) consecutive generated keys strictly
increase.  Both the out-of-line branch and the key-path branch of
`__deriveKey` produce this key. -/
theorem c2_autoincrement_key :
    getNextAutoIncKey none = 1 ∧
    (∀ s : Int, getNextAutoIncKey (some s) = s + 1) ∧
    (∀ r : SeqRow, getNextAutoIncKey r < getNextAutoIncKey (seqAfterInsert r)) ∧
    (∀ (n : String) (seq : SeqRow) (v : JsVal),
      deriveKey ⟨n, none, true⟩ seq v none
        = DeriveOut.ok (JsVal.num (getNextAutoIncKey seq)) v) ∧
    (∀ (n : String) (kp : List String) (seq : SeqRow) (v v' : JsVal),
      getValue v kp = JsVal.undef →
      setValue v kp (JsVal.num (getNextAutoIncKey seq)) = some v' →
      deriveKey ⟨n, some kp, true⟩ seq v none
        = DeriveOut.ok (JsVal.num (getNextAutoIncKey seq)) v') := by
  refine ⟨rfl, fun s => rfl, ?_, fun n seq v => rfl, ?_⟩
  · intro r
    cases r <;> simp [getNextAutoIncKey, seqAfterInsert] <;> omega
  · intro n kp seq v v' hget hset
    simp [deriveKey, hget, hset]

theorem c2_autoincrement_key_witness :
    getValue (JsVal.obj [("a", JsVal.num 5)]) ["id"] = JsVal.undef ∧
    setValue (JsVal.obj [("a", JsVal.num 5)]) ["id"] (JsVal.num 1)
      = some (JsVal.obj [("id", JsVal.num 1), ("a", JsVal.num 5)]) ∧
    deriveKey ⟨"st", some ["id"], true⟩ none (JsVal.obj [("a", JsVal.num 5)]) none
      = DeriveOut.ok (JsVal.num 1) (JsVal.obj [("id", JsVal.num 1), ("a", JsVal.num 5)]) :=
  ⟨rfl, rfl, c2_autoincrement_key.2.2.2.2 "st" ["id"] none _ _ rfl rfl⟩

/-- C3: put runs the identical synchronous validation as add; its queued
unit of work deletes by primary key and then inserts, so put always succeeds
(never `ConstraintError`, the deleted table has no row left under the key)
while add on a duplicate key fails with `ConstraintError`. -/
theorem c3_put_vs_add :
    (∀ (store : ObjectStore) (mode : TxMode) (value : JsVal) (key : Option JsVal),
      putPrelude store mode value key = addPrelude store mode value key) ∧
    (∀ (tbl : Table) (k : Int) (v : Nat),
      tbl.any (fun r => r.1 = k) = true →
      addWork tbl k v = Except.error ConstraintError) ∧
    (∀ (tbl : Table) (k : Int) (v : Nat),
      putWork tbl k v = Except.ok (sqlDeleteByKey tbl k ++ [(k, v)])) := by
  refine ⟨fun _ _ _ _ => rfl, ?_, ?_⟩
  · intro tbl k v h
    simp [addWork, insertData, h]
  · intro tbl k v
    simp [putWork, insertData, sqlDeleteByKey, any_filter_not_key]

theorem c3_put_vs_add_witness :
    ([((5 : Int), (7 : Nat))].any (fun r => r.1 = (5 : Int)) = true) ∧
    addWork [(5, 7)] 5 9 = Except.error ConstraintError ∧
    putWork [(5, 7)] 5 9 = Except.ok [(5, 9)] :=
  ⟨by decide, c3_put_vs_add.2.1 [(5, 7)] 5 9 (by decide), by
    simpa [sqlDeleteByKey] using c3_put_vs_add.2.2 [(5, 7)] 5 9⟩

/-- C7: add validates the key against the store schema synchronously, before
anything is enqueued (the validation error is returned for any transaction
state, and the queue is untouched because the call aborts at the validation
step): a key path plus an explicit key → DataError; a key path whose
in-line key is absent without auto-increment → DataError; no key path and
no key without auto-increment → DataError. -/
theorem c7_synchronous_validation :
    (∀ (s : TxState) (n : String) (kp : List String) (ai : Bool) (mode : TxMode)
        (value : JsVal) (k : JsVal) (b : OpBehavior),
      addCall s ⟨n, some kp, ai⟩ mode value (some k) b = Except.error DataError) ∧
    (∀ (s : TxState) (n : String) (kp : List String) (mode : TxMode)
        (value : JsVal) (b : OpBehavior),
      jsTruthy value = true → isObjectType value = true →
      getValue value kp = JsVal.undef →
      addCall s ⟨n, some kp, false⟩ mode value none b = Except.error DataError) ∧
    (∀ (s : TxState) (n : String) (mode : TxMode) (value : JsVal) (b : OpBehavior),
      addCall s ⟨n, none, false⟩ mode value none b = Except.error DataError) := by
  refine ⟨?_, ?_, ?_⟩
  · intro s n kp ai mode value k b
    simp [addCall, validateKey]
  · intro s n kp mode value b h1 h2 h3
    simp [addCall, validateKey, h1, h2, h3]
  · intro s n mode value b
    simp [addCall, validateKey]

theorem c7_synchronous_validation_witness :
    (jsTruthy (JsVal.obj []) = true) ∧ (isObjectType (JsVal.obj []) = true) ∧
    (getValue (JsVal.obj []) ["id"] = JsVal.undef) ∧
    addCall (initState [] HAct.nop) ⟨"st", some ["id"], false⟩ TxMode.readWrite
      (JsVal.obj []) none (OpBehavior.succeed none) = Except.error DataError :=
  ⟨rfl, rfl, rfl,
    c7_synchronous_validation.2.1 _ "st" ["id"] TxMode.readWrite _ _ rfl rfl rfl⟩

/-- C8: get's queued lookup resolves as "no value" (not an error) on zero
matching rows, resolves with the decoded value on a decodable row, and on a
decode failure resolves as "no value" instead of propagating the error; for
every successful row response the result is a success, never a failure. -/
theorem c8_get_degrades_gracefully :
    getWork (Except.ok []) = GetOut.success none ∧
    (∀ (v : Nat) (rest : List Stored),
      getWork (Except.ok (Stored.good v :: rest)) = GetOut.success (some v)) ∧
    (∀ rest : List Stored,
      getWork (Except.ok (Stored.bad :: rest)) = GetOut.success none) ∧
    (∀ rows : List Stored, ∃ v, getWork (Except.ok rows) = GetOut.success v) := by
  refine ⟨rfl, fun v rest => rfl, fun rest => rfl, ?_⟩
  intro rows
  cases rows with
  | nil => exact ⟨none, rfl⟩
  | cons r t =>
    cases r with
    | good v => exact ⟨some v, rfl⟩
    | bad => exact ⟨none, rfl⟩

/-- C10: on a store with a key path, a value that is not a (truthy) object —
a primitive, `null`, or any falsy value — makes both add and put throw
DataError synchronously, even when auto-increment is enabled. -/
theorem c10_nonobject_value_rejected :
    ∀ (s : TxState) (n : String) (kp : List String) (ai : Bool) (mode : TxMode)
      (value : JsVal) (key : Option JsVal) (b : OpBehavior),
      (jsTruthy value && isObjectType value) = false →
      addCall s ⟨n, some kp, ai⟩ mode value key b = Except.error DataError ∧
      putCall s ⟨n, some kp, ai⟩ mode value key b = Except.error DataError := by
  intro s n kp ai mode value key b h
  cases key with
  | some k =>
    exact ⟨by simp [addCall, validateKey], by simp [putCall, validateKey]⟩
  | none =>
    have h' : ¬ (jsTruthy value = true ∧ isObjectType value = true) := by
      intro hc
      simp [hc.1, hc.2] at h
    exact ⟨by simp [addCall, validateKey, h'], by simp [putCall, validateKey, h']⟩

theorem c10_nonobject_value_rejected_witness :
    ((jsTruthy (JsVal.str "x") && isObjectType (JsVal.str "x")) = false) ∧
    addCall (initState [] HAct.nop) ⟨"st", some ["id"], true⟩ TxMode.readWrite
      (JsVal.str "x") none (OpBehavior.succeed none) = Except.error DataError :=
  ⟨rfl,
    (c10_nonobject_value_rejected (initState [] HAct.nop) "st" ["id"] true
      TxMode.readWrite (JsVal.str "x") none (OpBehavior.succeed none) rfl).1⟩

/-- C4 counterexample: `abort()` called before the deferred start marks the
transaction inactive, yet both queued operations still execute afterwards and
both success notifications fire (their result handles resolve) — refuting
"every queued operation whose backend call has not yet started is discarded —
its procedure never runs and its result handle never resolves". -/
theorem c4_counterexample :
    (abortTx (initState (benignQueue
        [OpBehavior.succeed (some 1), OpBehavior.succeed (some 2)]) HAct.nop)).active
      = false ∧
    (runTx 3 (abortTx (initState (benignQueue
        [OpBehavior.succeed (some 1), OpBehavior.succeed (some 2)]) HAct.nop))).events
      = [Ev.execOp 0, Ev.reqSuccess 0, Ev.execOp 1, Ev.reqSuccess 1, Ev.txAbort] :=
  ⟨rfl, rfl⟩

/-- C4 amended: `abort()` immediately marks the transaction inactive, and the
abort notification fires only on a later scheduling turn — never from within
the drain.  But `abort()` does not discard queued operations: a run whose
transaction was aborted before the start still executes every queued
operation (the canonical trace, with each operation's events present);
queued operations are discarded — never executed, never resolved — only by
the error path, which stops the drain after a failed operation. -/
theorem c4_abort_semantics :
    (∀ s : TxState, (abortTx s).active = false) ∧
    (∀ (fuel : Nat) (s : TxState), Ev.txAbort ∉ (executeRequests fuel s).events) ∧
    (∀ bs : List OpBehavior,
      (runTx (bs.length + 1) (abortTx (initState (benignQueue bs) HAct.nop))).events
        = benignTrace false 0 bs ++ [Ev.txAbort]) ∧
    (∀ (bs : List OpBehavior) (j : Nat), hasFailure bs = false → j < bs.length →
      Ev.execOp j ∈
        (runTx (bs.length + 1) (abortTx (initState (benignQueue bs) HAct.nop))).events) ∧
    (∀ (pre : List OpBehavior) (e : String) (post : List OpBehavior) (k : Nat),
      hasFailure pre = false → pre.length < k →
      Ev.execOp k ∉ (runBenign (pre ++ OpBehavior.fail e :: post)).events ∧
      Ev.reqSuccess k ∉ (runBenign (pre ++ OpBehavior.fail e :: post)).events ∧
      Ev.reqError k ∉ (runBenign (pre ++ OpBehavior.fail e :: post)).events) := by
  refine ⟨fun s => rfl, txAbort_notin_executeRequests, runAbortFirst_spec, ?_, ?_⟩
  · intro bs j hf hj
    rw [runAbortFirst_spec]
    have := benignTrace_mem_exec bs false 0 j hf hj
    simp only [Nat.zero_add] at this
    exact List.mem_append.mpr (Or.inl this)
  · intro pre e post k hf hk
    have hev := (runBenign_spec (pre ++ OpBehavior.fail e :: post)).1
    simp only [hasFailure_append_fail, if_pos, List.replicate_one] at hev
    have main : ∀ ev : Ev, evIdx ev = some k →
        ev ∉ (runBenign (pre ++ OpBehavior.fail e :: post)).events := by
      intro ev hevk hmem
      rw [hev] at hmem
      rcases List.mem_append.mp hmem with hm | hm
      · have := benignTrace_fail_bound pre true 0 e post hf ev hm k hevk
        omega
      · simp at hm
        subst hm
        simp [evIdx] at hevk
    exact ⟨main _ rfl, main _ rfl, main _ rfl⟩

theorem c4_abort_semantics_witness :
    (hasFailure [OpBehavior.succeed (some 1)] = false) ∧
    (0 < [OpBehavior.succeed (some 1)].length) ∧
    Ev.execOp 0 ∈ (runTx ([OpBehavior.succeed (some 1)].length + 1)
      (abortTx (initState (benignQueue [OpBehavior.succeed (some 1)]) HAct.nop))).events :=
  ⟨rfl, by decide,
    c4_abort_semantics.2.2.2.1 [OpBehavior.succeed (some 1)] 0 rfl (by decide)⟩

/-- C5 counterexample: an `oncomplete` handler that calls `abort()` — the
completion notification fires and an abort notification also fires for the
same transaction, so it is not the case that exactly one of
{complete, abort/error} fires per transaction (and `abort()` itself has no
guard: nothing consults the `errored` flag before scheduling the abort
notification). -/
theorem c5_counterexample :
    ((runTx 1 (initState [] HAct.abortCall)).events.count Ev.txComplete = 1) ∧
    ((runTx 1 (initState [] HAct.abortCall)).events.count Ev.txAbort = 1) :=
  ⟨rfl, rfl⟩

/-- C5 amended: once the `errored` flag is set it stays set for the rest of
the run, and the transaction-level error finalizer is then a complete no-op
(same state, no events, nothing thrown); in any full run of a transaction
none of whose handlers calls `abort()` — handlers may still throw or enqueue
— exactly one engine-driven terminal notification fires, complete or error
(an exception escaping a handler is routed back to the error path by the
backend's error callback), and an abort notification fires exactly once per
error notification (the error finalizer's own deferred `abort()`).  Only a
user handler invoking `abort()` (see the counterexample) can add extra abort
notifications. -/
theorem c5_single_terminal_path :
    (∀ (s : TxState) (e : String), s.errored = true →
      transactionError s e = ⟨s, [], none⟩) ∧
    (∀ (fuel : Nat) (s : TxState), s.errored = true →
      (drain fuel s).state.errored = true) ∧
    (∀ (items : List QItem) (oc : HAct),
      noAbortState (initState items oc) = true →
      (runTx (queueWeight (initState items oc) + 1)
          (initState items oc)).events.count Ev.txComplete
        + (runTx (queueWeight (initState items oc) + 1)
            (initState items oc)).events.count Ev.txError = 1 ∧
      (runTx (queueWeight (initState items oc) + 1)
          (initState items oc)).events.count Ev.txAbort
        = (runTx (queueWeight (initState items oc) + 1)
            (initState items oc)).events.count Ev.txError) := by
  refine ⟨transactionError_noop, drain_errored_mono, ?_⟩
  intro items oc hna
  have hE := executeRequests_noabort (queueWeight (initState items oc) + 1)
    (initState items oc) (by omega) hna rfl rfl rfl
  have hA : (executeRequests (queueWeight (initState items oc) + 1)
      (initState items oc)).events.count Ev.txAbort = 0 :=
    List.count_eq_zero_of_not_mem (txAbort_notin_executeRequests _ _)
  have hrep := count_replicate_txAbort
    ((executeRequests (queueWeight (initState items oc) + 1)
      (initState items oc)).state.pendingAborts)
  constructor
  · simp only [runTx, flushAborts, List.count_append, hrep.1, hrep.2.1]
    simpa using hE.1
  · simp only [runTx, flushAborts, List.count_append, hrep.2.1, hrep.2.2, hA]
    simpa [initState] using hE.2

theorem c5_single_terminal_path_witness :
    ((⟨[], 0, true, false, true, none, 0, HAct.nop⟩ : TxState).errored = true) ∧
    transactionError (⟨[], 0, true, false, true, none, 0, HAct.nop⟩ : TxState) "E"
      = ⟨(⟨[], 0, true, false, true, none, 0, HAct.nop⟩ : TxState), [], none⟩ ∧
    (drain 1 (⟨[], 0, true, false, true, none, 0, HAct.nop⟩ : TxState)).state.errored
      = true ∧
    noAbortState (initState
      [mkItem (OpBehavior.succeed none) (HAct.throws "H") HAct.nop] HAct.nop) = true ∧
    (runTx (queueWeight (initState
          [mkItem (OpBehavior.succeed none) (HAct.throws "H") HAct.nop] HAct.nop) + 1)
        (initState [mkItem (OpBehavior.succeed none) (HAct.throws "H") HAct.nop]
          HAct.nop)).events.count Ev.txComplete
      + (runTx (queueWeight (initState
            [mkItem (OpBehavior.succeed none) (HAct.throws "H") HAct.nop] HAct.nop) + 1)
          (initState [mkItem (OpBehavior.succeed none) (HAct.throws "H") HAct.nop]
            HAct.nop)).events.count Ev.txError = 1 :=
  ⟨rfl, c5_single_terminal_path.1 _ "E" rfl, c5_single_terminal_path.2.1 1 _ rfl, rfl,
    (c5_single_terminal_path.2.2
      [mkItem (OpBehavior.succeed none) (HAct.throws "H") HAct.nop] HAct.nop rfl).1⟩

/-- C6: the error continuation marks the request failed (readyState done,
error recorded, result cleared), fires its per-operation failure
notification, and then the transaction-level error path runs unconditionally
— with identical events and identical transaction-level state whether the
per-operation onerror handler returns normally or throws; the handler's
exception still propagates afterwards (finally-semantics). -/
theorem c6_error_path_finally :
    ∀ (s : TxState) (idx : Nat) (err e : String),
    s.active = true → s.errored = false →
    ((errorStep s idx err HAct.nop).events = [Ev.reqError idx, Ev.txError] ∧
     (errorStep s idx err (HAct.throws e)).events = [Ev.reqError idx, Ev.txError]) ∧
    (errorStep s idx err HAct.nop).state = (errorStep s idx err (HAct.throws e)).state ∧
    ((errorStep s idx err (HAct.throws e)).state.errored = true ∧
     (errorStep s idx err (HAct.throws e)).state.active = false ∧
     (errorStep s idx err (HAct.throws e)).state.errVal = some err) ∧
    ((errorStep s idx err (HAct.throws e)).state.requests[idx]?
      = s.requests[idx]?.map
          (fun q => { q with readyState := "done", errVal := some err, result := none })) ∧
    (errorStep s idx err (HAct.throws e)).thrown = some e := by
  intro s idx err e ha he
  refine ⟨⟨?_, ?_⟩, ?_, ⟨?_, ?_, ?_⟩, ?_, ?_⟩ <;>
    simp [errorStep, transactionError, setReqFailed, abortTx, ha, he,
      getElem?_modifyAt]

theorem c6_error_path_finally_witness :
    ((initState [mkItem (OpBehavior.fail "E") HAct.nop HAct.nop] HAct.nop).active
      = true) ∧
    ((initState [mkItem (OpBehavior.fail "E") HAct.nop HAct.nop] HAct.nop).errored
      = false) ∧
    (errorStep (initState [mkItem (OpBehavior.fail "E") HAct.nop HAct.nop] HAct.nop)
        0 "E" (HAct.throws "H")).events = [Ev.reqError 0, Ev.txError] :=
  ⟨rfl, rfl,
    (c6_error_path_finally
      (initState [mkItem (OpBehavior.fail "E") HAct.nop HAct.nop] HAct.nop)
      0 "E" "H" rfl rfl).1.2⟩

/-- C9: after a transaction's queue has fully drained and it has gone
inactive, every enqueue attempt fails with `TransactionInactiveError` — both
directly through `__pushToQueue` and through a façade call such as add
(whose validation passes); while an operation enqueued from a success
handler during the drain, while the transaction is still active, is executed
in the same pass (the live index keeps advancing against the live list). -/
theorem c9_post_drain_enqueue_rejected :
    (∀ (bs : List OpBehavior) (item : QItem),
      pushToQueue (runBenign bs).state item
        = Except.error TransactionInactiveError) ∧
    (∀ (bs : List OpBehavior) (b : OpBehavior),
      addCall (runBenign bs).state ⟨"store", none, true⟩ TxMode.readWrite
        (JsVal.str "x") none b = Except.error TransactionInactiveError) ∧
    ((runTx 3 (initState [mkItem (OpBehavior.succeed none)
        (HAct.enq (OpBehavior.succeed (some 7))) HAct.nop] HAct.nop)).events
      = [Ev.execOp 0, Ev.reqSuccess 0, Ev.execOp 1, Ev.reqSuccess 1,
          Ev.txComplete]) := by
  refine ⟨?_, ?_, rfl⟩
  · intro bs item
    have h := (runBenign_spec bs).2.1
    simp [pushToQueue, h]
  · intro bs b
    have h := (runBenign_spec bs).2.1
    simp [addCall, validateKey, assertWritable, pushToQueue, h]

end IDBShim
